import Mathlib

/-!
Verification development for the reference-data comparison tool
(`compare.py`, the monolithic iteration, and `compare2.py`, the decomposed
iteration).  The pandas/numpy table algebra is embedded with exact rational
values extended by the IEEE special values `nan`, `inf`, `ninf` and by
non-numeric (string) cells, so that division by zero, masking and the
per-key exception behaviour of the source are reproduced faithfully.
-/

/-- A cell value of a tabular store: an exact numeric value, one of the
IEEE special values produced by float arithmetic, or non-numeric content
(for which pandas arithmetic raises `TypeError`). -/
inductive EVal where
  | num (q : ℚ)
  | nan
  | inf
  | ninf
  | str (s : String)
deriving DecidableEq, Repr

/-- Value equality as used by `pandas .equals`: NaNs in the same location
compare equal. -/
def evEq : EVal → EVal → Bool
  | .num a, .num b => decide (a = b)
  | .nan, .nan => true
  | .inf, .inf => true
  | .ninf, .ninf => true
  | .str a, .str b => decide (a = b)
  | _, _ => false

/-- Elementwise subtraction (`left - right`); raises `TypeError` on
non-numeric content, otherwise follows IEEE float semantics. -/
def evSub : EVal → EVal → Except String EVal
  | .str _, _ => .error "TypeError: unsupported operand for sub"
  | _, .str _ => .error "TypeError: unsupported operand for sub"
  | .num a, .num b => .ok (.num (a - b))
  | .nan, _ => .ok .nan
  | _, .nan => .ok .nan
  | .inf, .inf => .ok .nan
  | .inf, _ => .ok .inf
  | .ninf, .ninf => .ok .nan
  | .ninf, _ => .ok .ninf
  | .num _, .inf => .ok .ninf
  | .num _, .ninf => .ok .inf

/-- Elementwise absolute value (`np.fabs`); raises on non-numeric content. -/
def evAbs : EVal → Except String EVal
  | .num a => .ok (.num |a|)
  | .nan => .ok .nan
  | .inf => .ok .inf
  | .ninf => .ok .inf
  | .str _ => .error "TypeError: unsupported operand for fabs"

/-- Elementwise division; division of a nonzero value by zero yields a
signed infinity and `0 / 0` yields NaN, exactly as float arithmetic does. -/
def evDiv : EVal → EVal → Except String EVal
  | .str _, _ => .error "TypeError: unsupported operand for div"
  | _, .str _ => .error "TypeError: unsupported operand for div"
  | .nan, _ => .ok .nan
  | _, .nan => .ok .nan
  | .num a, .num b =>
      if b = 0 then
        if a = 0 then .ok .nan
        else if 0 < a then .ok .inf
        else .ok .ninf
      else .ok (.num (a / b))
  | .num _, .inf => .ok (.num 0)
  | .num _, .ninf => .ok (.num 0)
  | .inf, .inf => .ok .nan
  | .inf, .ninf => .ok .nan
  | .ninf, .inf => .ok .nan
  | .ninf, .ninf => .ok .nan
  | .inf, .num b => if 0 ≤ b then .ok .inf else .ok .ninf
  | .ninf, .num b => if 0 ≤ b then .ok .ninf else .ok .inf

/-- The boolean test `x != 0` of the mask `left != 0`; NaN, infinities and
strings all compare unequal to zero in pandas. -/
def evNeZero : EVal → Bool
  | .num a => decide (a ≠ 0)
  | _ => true

/-- A value that a float table renders as NaN or ±Inf. -/
def evNonFinite : EVal → Bool
  | .nan => true
  | .inf => true
  | .ninf => true
  | _ => false

/-- A table (pandas series): a list of (index label, cell value) entries. -/
abbrev Table := List (Nat × EVal)

/-- The index labels of a table. -/
def labels (t : Table) : List Nat := t.map Prod.fst

/-- Label lookup (first matching entry, as a pandas index lookup). -/
def lookupV : Table → Nat → Option EVal
  | [], _ => none
  | (j, v) :: rest, i => if j = i then some v else lookupV rest i

/-- Every cell of the table is a finite numeric value. -/
def allNum (t : Table) : Bool :=
  t.all fun p => match p.2 with
    | .num _ => true
    | _ => false

/-- The pandas equals predicate: same shape, same index labels, same values with
NaNs in equal positions considered equal. -/
def tEquals (t1 t2 : Table) : Bool :=
  decide (t1.length = t2.length) &&
    (List.zip t1 t2).all fun p => decide (p.1.1 = p.2.1) && evEq p.1.2 p.2.2

/-- Exception-propagating elementwise map: the first raising cell aborts
the whole table operation (the exception the interpreter would raise). -/
def exMap (f : Nat → Except String (Nat × EVal)) : List Nat → Except String Table
  | [] => .ok []
  | i :: is =>
    match f i with
    | .error e => .error e
    | .ok p =>
      match exMap f is with
      | .error e => .error e
      | .ok r => .ok (p :: r)

/-- Index alignment of a binary pandas operation: the labels of the left
operand followed by the labels only the right operand has. -/
def alignLabels (t1 t2 : Table) : List Nat :=
  labels t1 ++ (labels t2).filter fun i => !((labels t1).contains i)

/-- One aligned cell of a binary pandas operation: positions present on
only one side produce NaN. -/
def alignCell (op : EVal → EVal → Except String EVal) (t1 t2 : Table) (i : Nat) :
    Except String (Nat × EVal) :=
  match lookupV t1 i, lookupV t2 i with
  | some a, some b =>
    match op a b with
    | .error e => .error e
    | .ok v => .ok (i, v)
  | _, _ => .ok (i, .nan)

/-- A binary elementwise operation with pandas index alignment. -/
def binAligned (op : EVal → EVal → Except String EVal) (t1 t2 : Table) :
    Except String Table :=
  exMap (alignCell op t1 t2) (alignLabels t1 t2)

/-- Table subtraction, left minus right. -/
def tSub (t1 t2 : Table) : Except String Table := binAligned evSub t1 t2

/-- Elementwise quotient of tables. -/
def tDiv (t1 t2 : Table) : Except String Table := binAligned evDiv t1 t2

/-- Elementwise absolute value of a table. -/
def tAbs : Table → Except String Table
  | [] => .ok []
  | (i, v) :: rest =>
    match evAbs v with
    | .error e => .error e
    | .ok w =>
      match tAbs rest with
      | .error e => .error e
      | .ok r => .ok ((i, w) :: r)

/-- Boolean-mask selection `t[base != 0]`: pandas requires the boolean
indexer to be label-aligned with the indexed table and then keeps exactly
the rows whose mask value is true. -/
def tMaskNeZero (t base : Table) : Except String Table :=
  if labels base = labels t then
    .ok (t.filter fun p =>
      match lookupV base p.1 with
      | some w => evNeZero w
      | none => false)
  else .error "IndexingError: unalignable boolean indexer"

/-- The relative-difference table the older iteration stores and the two
iterations display: `(|left - right| / |left|)[left != 0]` computed exactly
in the order the source computes it. -/
def displayDiffs (t1 t2 : Table) : Except String (Table × Table) :=
  match tSub t1 t2 with
  | .error e => .error e
  | .ok d =>
    match tAbs d with
    | .error e => .error e
    | .ok absDiff =>
      match tAbs t1 with
      | .error e => .error e
      | .ok a1 =>
        match tDiv absDiff a1 with
        | .error e => .error e
        | .ok q =>
          match tMaskNeZero q t1 with
          | .error e => .error e
          | .ok relDiff => .ok (absDiff, relDiff)

/-- The table the decomposed iteration stores for a differing key:
the signed, unmasked `(left - right) / left`. -/
def relStored (t1 t2 : Table) : Except String Table :=
  match tSub t1 t2 with
  | .error e => .error e
  | .ok d => tDiv d t1

/-- A keyed tabular store: named tables addressed by string keys. -/
abbrev Store := List (String × Table)

/-- The key set of a store (`set(store.keys())`). -/
def storeKeys (s : Store) : List String := (s.map Prod.fst).dedup

/-- Loading a table by key. -/
def storeGet : Store → String → Option Table
  | [], _ => none
  | (k, t) :: rest, j => if k = j then some t else storeGet rest j

/-- The intersection of the two key sets, in a canonical order. -/
def interKeys (s1 s2 : Store) : List String :=
  (storeKeys s1).filter fun k => (storeKeys s2).contains k

/-- Cardinality of the symmetric key-set difference: the number of keys present in exactly one store. -/
def diffKeysCount (s1 s2 : Store) : Nat :=
  ((storeKeys s1).filter fun k => !((storeKeys s2).contains k)).length +
    ((storeKeys s2).filter fun k => !((storeKeys s1).contains k)).length

/-- The mutable accumulators of the per-key loop of
`summarise_changes_hdf`: `identical_items`,
`identical_name_different_data`, `identical_name_different_data_dfs`,
and the keys whose comparison raised and was caught. -/
structure KeyLoopState where
  identical : List String
  diffData : List String
  dfs : List (String × Table)
  errs : List String
deriving DecidableEq, Repr

/-- One iteration of the per-key loop of
`HDFComparator.summarise_changes_hdf` (compare2.py): on unequal tables the
key is appended to `identical_name_different_data` first, then the stored
table `(ref1[item] - ref2[item]) / ref1[item]` is computed (which may
raise), then the masked differences are computed for display (which may
also raise); a raise is caught and the key is reported as an error. -/
def processKey2 (s1 s2 : Store) (st : KeyLoopState) (k : String) : KeyLoopState :=
  match storeGet s1 k, storeGet s2 k with
  | some t1, some t2 =>
    if tEquals t1 t2 then
      { st with identical := st.identical ++ [k] }
    else
      let st1 := { st with diffData := st.diffData ++ [k] }
      match relStored t1 t2 with
      | .error _ => { st1 with errs := st1.errs ++ [k] }
      | .ok d =>
        let st2 := { st1 with dfs := st1.dfs ++ [(k, d)] }
        match displayDiffs t1 t2 with
        | .error _ => { st2 with errs := st2.errs ++ [k] }
        | .ok _ => st2
  | _, _ => st

/-- One iteration of the per-key loop of
`ReferenceComparer.summarise_changes_hdf` (compare.py): the differences are
computed and displayed first (a raise is caught and reported), and only
then is the key appended and the masked relative difference stored. -/
def processKey1 (s1 s2 : Store) (st : KeyLoopState) (k : String) : KeyLoopState :=
  match storeGet s1 k, storeGet s2 k with
  | some t1, some t2 =>
    if tEquals t2 t1 then
      { st with identical := st.identical ++ [k] }
    else
      match displayDiffs t1 t2 with
      | .error _ => { st with errs := st.errs ++ [k] }
      | .ok p =>
        { st with diffData := st.diffData ++ [k], dfs := st.dfs ++ [(k, p.2)] }
  | _, _ => st

/-- The per-key loop of compare2.py over the key intersection. -/
def keyLoop2 (s1 s2 : Store) : KeyLoopState :=
  (interKeys s1 s2).foldl (processKey2 s1 s2) ⟨[], [], [], []⟩

/-- The per-key loop of compare.py over the key intersection. -/
def keyLoop1 (s1 s2 : Store) : KeyLoopState :=
  (interKeys s1 s2).foldl (processKey1 s1 s2) ⟨[], [], [], []⟩

/-- The record `summarise_changes_hdf` produces for one store file pair. -/
structure HDFSummary where
  different_keys : Nat
  identical_keys : Nat
  identical_keys_diff_data : Nat
  dfs : List (String × Table)
deriving DecidableEq, Repr

/-- The summary and the caught per-key errors of the compare2.py key loop. -/
def summariseCore2 (s1 s2 : Store) : HDFSummary × List String :=
  let st := keyLoop2 s1 s2
  (⟨diffKeysCount s1 s2, st.identical.length, st.diffData.length, st.dfs⟩, st.errs)

/-- The summary and the caught per-key errors of the compare.py key loop. -/
def summariseCore1 (s1 s2 : Store) : HDFSummary × List String :=
  let st := keyLoop1 s1 s2
  (⟨diffKeysCount s1 s2, st.identical.length, st.diffData.length, st.dfs⟩, st.errs)

/-- Association lookup in the stored per-key difference mapping. -/
def lookupTab : List (String × Table) → String → Option Table
  | [], _ => none
  | (k, t) :: rest, j => if k = j then some t else lookupTab rest j

/-- The classification predicates realised by the key loops, used to state
what the loops compute. -/
def bothTables (s1 s2 : Store) (k : String) : Option (Table × Table) :=
  match storeGet s1 k, storeGet s2 k with
  | some t1, some t2 => some (t1, t2)
  | _, _ => none

/-- Key counted in `identical_items` by compare2.py. -/
def identicalKey2 (s1 s2 : Store) (k : String) : Bool :=
  match bothTables s1 s2 k with
  | some p => tEquals p.1 p.2
  | none => false

/-- Key counted in `identical_name_different_data` by compare2.py. -/
def diffKey2 (s1 s2 : Store) (k : String) : Bool :=
  match bothTables s1 s2 k with
  | some p => !tEquals p.1 p.2
  | none => false

/-- The entry compare2.py stores in the per-key difference mapping. -/
def dfsEntry2 (s1 s2 : Store) (k : String) : Option (String × Table) :=
  match bothTables s1 s2 k with
  | some p =>
    if tEquals p.1 p.2 then none
    else
      match relStored p.1 p.2 with
      | .ok d => some (k, d)
      | .error _ => none
  | none => none

/-- Key whose comparison raises and is caught by compare2.py. -/
def errKey2 (s1 s2 : Store) (k : String) : Bool :=
  match bothTables s1 s2 k with
  | some p =>
    !tEquals p.1 p.2 &&
      (match relStored p.1 p.2 with
       | .error _ => true
       | .ok _ =>
         match displayDiffs p.1 p.2 with
         | .error _ => true
         | .ok _ => false)
  | none => false

/-- Key counted in `identical_items` by compare.py. -/
def identicalKey1 (s1 s2 : Store) (k : String) : Bool :=
  match bothTables s1 s2 k with
  | some p => tEquals p.2 p.1
  | none => false

/-- Key counted in `identical_name_different_data` by compare.py. -/
def diffKey1 (s1 s2 : Store) (k : String) : Bool :=
  match bothTables s1 s2 k with
  | some p => !tEquals p.2 p.1 && (displayDiffs p.1 p.2).isOk
  | none => false

/-- The entry compare.py stores in the per-key difference mapping. -/
def dfsEntry1 (s1 s2 : Store) (k : String) : Option (String × Table) :=
  match bothTables s1 s2 k with
  | some p =>
    if tEquals p.2 p.1 then none
    else
      match displayDiffs p.1 p.2 with
      | .ok q => some (k, q.2)
      | .error _ => none
  | none => none

/-- Key whose comparison raises and is caught by compare.py. -/
def errKey1 (s1 s2 : Store) (k : String) : Bool :=
  match bothTables s1 s2 k with
  | some p => !tEquals p.2 p.1 && !(displayDiffs p.1 p.2).isOk
  | none => false

/-- The failure that `pd.HDFStore` raises on a path that is not a valid
store file. -/
inductive CompErr where
  | storeOpenError
deriving DecidableEq, Repr

/-- Bookkeeping of currently open store handles: the ids of the open
handles and the id the next successful open receives. -/
structure HandleState where
  openIds : List Nat
  nextId : Nat
deriving DecidableEq, Repr

/-- The handle state of a fresh comparator invocation. -/
def initHandles : HandleState := ⟨[], 0⟩

/-- Opening a store path: either acquires a new open handle or raises
without leaving a handle open. -/
def openStore (p : Option Store) (h : HandleState) :
    Except CompErr (Store × Nat × HandleState) :=
  match p with
  | none => .error .storeOpenError
  | some s => .ok (s, h.nextId, ⟨h.openIds ++ [h.nextId], h.nextId + 1⟩)

/-- Closing an open store handle. -/
def closeStore (id : Nat) (h : HandleState) : HandleState :=
  ⟨h.openIds.erase id, h.nextId⟩

/-- The compare2.py `HDFComparator.summarise_changes_hdf` with its resource
effects: open `ref1`, open `ref2`, run the per-key loop (whose per-key
exceptions are all caught), close `ref1`, close `ref2`, return the result
record.  There is no `try/finally`, so a failing second open propagates
with the first handle still open. -/
def summariseChangesHdf2 (p1 p2 : Option Store) (h : HandleState) :
    Except CompErr (HDFSummary × List String) × HandleState :=
  match openStore p1 h with
  | .error e => (.error e, h)
  | .ok o1 =>
    match openStore p2 o1.2.2 with
    | .error e => (.error e, o1.2.2)
    | .ok o2 =>
      let core := summariseCore2 o1.1 o2.1
      let h3 := closeStore o1.2.1 o2.2.2
      let h4 := closeStore o2.2.1 h3
      (.ok core, h4)

/-- The compare.py `ReferenceComparer.summarise_changes_hdf` with its
resource effects: open `ref1`, open `ref2`, run the per-key loop, return —
neither store is ever closed. -/
def summariseChangesHdf1 (p1 p2 : Option Store) (h : HandleState) :
    Except CompErr (HDFSummary × List String) × HandleState :=
  match openStore p1 h with
  | .error e => (.error e, h)
  | .ok o1 =>
    match openStore p2 o1.2.2 with
    | .error e => (.error e, o1.2.2)
    | .ok o2 =>
      let core := summariseCore1 o1.1 o2.1
      (.ok core, o2.2.2)

/-- One entry of `test_table_dict`: the recorded relative path and, once
the comparator has returned, its summary record. -/
abbrev RepEntry := String × Option HDFSummary

/-- The report `test_table_dict`: a mapping from base file name to its entry,
accumulated by dict assignment (replace an existing key in place,
otherwise append). -/
abbrev Report := List (String × RepEntry)

/-- Python dict assignment `d[name] = e`. -/
def insertRep (rep : Report) (n : String) (e : RepEntry) : Report :=
  if (rep.map Prod.fst).contains n then
    rep.map fun p => if p.1 = n then (n, e) else p
  else rep ++ [(n, e)]

/-- Dict lookup in the report. -/
def lookupRep : Report → String → Option RepEntry
  | [], _ => none
  | (k, e) :: rest, j => if k = j then some e else lookupRep rest j

/-- One store file discovered while walking the first snapshot tree:
its base name, the relative path of its directory, the openability and
contents of the file on the `ref1` side, and — when the matching file
exists under the `ref2` root — the openability and contents on that
side. -/
structure FileEntry where
  name : String
  relPath : String
  left : Option Store
  right : Option (Option Store)
deriving Repr

/-- The walk `ReferenceComparer.compare_hdf_files` together with
`ReferenceComparer.summarise_changes_hdf` (compare2.py): walk the
discovered store files; for each one whose counterpart exists, record its
path entry in `test_table_dict`, invoke the comparator, and merge the
returned record into the entry.  No exception is caught here, so a store
that fails to open aborts the whole walk; the first component of the
result is the escaping exception, the second the report as left behind,
the third the handle state. -/
def compareHdfFiles2 : List FileEntry → Report → HandleState →
    Option CompErr × Report × HandleState
  | [], rep, h => (none, rep, h)
  | f :: rest, rep, h =>
    match f.right with
    | none => compareHdfFiles2 rest rep h
    | some p2 =>
      let rep1 := insertRep rep f.name (f.relPath, none)
      let r := summariseChangesHdf2 f.left p2 h
      match r.1 with
      | .error e => (some e, rep1, r.2)
      | .ok se => compareHdfFiles2 rest (insertRep rep1 f.name (f.relPath, some se.1)) r.2

/-- Filesystem side effects the constructor and `setup` can perform. -/
inductive InitEffect where
  | mkdtemp
  | gitCheckout (h : String)
  | copyTree
deriving DecidableEq, Repr

/-- The side effects of `ReferenceComparer.setup` (compare.py): create the
scratch directory, then materialise each reference from its revision or by
a filesystem copy. -/
def setupEffects1 (h1 h2 : Option String) : List InitEffect :=
  [InitEffect.mkdtemp] ++
    (match h1 with
     | some g => [InitEffect.gitCheckout g]
     | none => [InitEffect.copyTree]) ++
    (match h2 with
     | some g => [InitEffect.gitCheckout g]
     | none => [InitEffect.copyTree])

/-- The compare.py constructor: the assertion that not both
hashes are `None` runs first; only afterwards is `setup` called, which
creates the scratch directory.  The first component is the assertion
failure, if any; the second the filesystem effects performed. -/
def refInit1 (h1 h2 : Option String) : Option String × List InitEffect :=
  if h1 = none ∧ h2 = none then (some "One hash can not be None", [])
  else (none, setupEffects1 h1 h2)

/-- The compare2.py constructor: the same assertion runs
first and the constructor performs no filesystem effect at all — `setup`
is a separate public call. -/
def refInit2 (h1 h2 : Option String) : Option String × List InitEffect :=
  if h1 = none ∧ h2 = none then (some "One hash can not be None", [])
  else (none, [])

/-- The directories currently existing on disk. -/
abbrev FS := List String

/-- Recursive tree removal: raises `FileNotFoundError` on a missing path. -/
def rmtree (d : String) (fs : FS) : Except String FS :=
  if fs.contains d then .ok (fs.erase d) else .error "FileNotFoundError"

/-- The state of `FileManager` (compare2.py). -/
structure FileManagerState where
  temp_dir : Option String
deriving DecidableEq, Repr

/-- The compare2.py `FileManager.teardown`: remove the scratch directory only
if one is recorded and still exists, then forget it. -/
def fmTeardown (m : FileManagerState) (fs : FS) :
    Except String (FileManagerState × FS) :=
  match m.temp_dir with
  | some d =>
    if fs.contains d then
      match rmtree d fs with
      | .ok fs2 => .ok (⟨none⟩, fs2)
      | .error e => .error e
    else .ok (⟨none⟩, fs)
  | none => .ok (⟨none⟩, fs)

/-- The compare.py `ReferenceComparer.teardown`: `shutil.rmtree(self.tmp_dir)`
unconditionally. -/
def teardown1 (tmp_dir : Option String) (fs : FS) : Except String FS :=
  match tmp_dir with
  | none => .error "TypeError: rmtree of None"
  | some d => rmtree d fs

/-- A filesystem entry: a regular file with byte content and modification
time, or a directory with named children. -/
inductive FSEntry where
  | file (content : List Nat) (mtime : Nat)
  | dir (entries : List (String × FSEntry))

/-- Name lookup in a directory listing. -/
def lookupE : List (String × FSEntry) → String → Option FSEntry
  | [], _ => none
  | (m, e) :: rest, n => if m = n then some e else lookupE rest n

/-- The `filecmp.DEFAULT_IGNORES` list: names `dircmp` drops from both listings. -/
def defaultIgnores : List String :=
  ["RCS", "CVS", "tags", ".git", ".hg", ".bzr", "_darcs", "__pycache__"]

/-- The filtered name listing of one directory level (`dircmp` phase 0). -/
def listing (l : List (String × FSEntry)) : List String :=
  ((l.map Prod.fst).dedup).filter fun n => !(defaultIgnores.contains n)

/-- Names present in both listings (`dircmp.common`). -/
def commonNames (l r : List (String × FSEntry)) : List String :=
  (listing l).filter fun n => (listing r).contains n

/-- Names only in the left listing (`dircmp.left_only`). -/
def leftOnlyNames (l r : List (String × FSEntry)) : List String :=
  (listing l).filter fun n => !((listing r).contains n)

/-- Names only in the right listing (`dircmp.right_only`). -/
def rightOnlyNames (l r : List (String × FSEntry)) : List String :=
  (listing r).filter fun n => !((listing l).contains n)

/-- The `filecmp.cmp` comparison with its default `shallow=True`: equal stat signatures
(size, mtime) short-circuit to equal without reading the files; different
sizes short-circuit to unequal; otherwise the byte contents decide. -/
def fileCmpShallow (c1 : List Nat) (m1 : Nat) (c2 : List Nat) (m2 : Nat) : Bool :=
  if c1.length = c2.length ∧ m1 = m2 then true
  else if c1.length ≠ c2.length then false
  else decide (c1 = c2)

/-- The `dircmp.diff_files` set: common names that are files on both sides and for
which the shallow comparison reports unequal. -/
def diffFilesNames (l r : List (String × FSEntry)) : List String :=
  (commonNames l r).filter fun n =>
    match lookupE l n, lookupE r n with
    | some (.file c1 m1), some (.file c2 m2) => !fileCmpShallow c1 m1 c2 m2
    | _, _ => false

/-- The `dircmp.common_funny` set: common names whose entry kinds disagree. -/
def commonFunnyNames (l r : List (String × FSEntry)) : List String :=
  (commonNames l r).filter fun n =>
    match lookupE l n, lookupE r n with
    | some (.file _ _), some (.dir _) => true
    | some (.dir _), some (.file _ _) => true
    | _, _ => false

/-- The common names that are directories on both sides, paired with the
two child listings (`dircmp.common_dirs` feeding `dircmp.subdirs`). -/
def commonDirPairs (l r : List (String × FSEntry)) :
    List (String × List (String × FSEntry) × List (String × FSEntry)) :=
  (commonNames l r).filterMap fun n =>
    match lookupE l n, lookupE r n with
    | some (.dir es1), some (.dir es2) => some (n, es1, es2)
    | _, _ => none

/-- One directory level of the structural diff result, with the recursive
results for common subdirectories. -/
inductive DiffNode where
  | mk (leftOnly rightOnly diffFiles funny : List String)
       (subdirs : List (String × DiffNode))

/-- Accessors of the diff node. -/
def DiffNode.leftOnly : DiffNode → List String
  | .mk a _ _ _ _ => a

def DiffNode.rightOnly : DiffNode → List String
  | .mk _ a _ _ _ => a

def DiffNode.diffFiles : DiffNode → List String
  | .mk _ _ a _ _ => a

def DiffNode.funny : DiffNode → List String
  | .mk _ _ _ a _ => a

def DiffNode.subdirs : DiffNode → List (String × DiffNode)
  | .mk _ _ _ _ a => a

theorem lookupE_sizeOf {l : List (String × FSEntry)} {n : String} {e : FSEntry}
    (h : lookupE l n = some e) : sizeOf e < sizeOf l := by
  induction l with
  | nil => simp [lookupE] at h
  | cons hd tl ih =>
    rw [lookupE] at h
    by_cases hn : hd.1 = n
    · simp only [hn, if_pos rfl] at h
      cases h
      cases hd with
      | mk a b => simp; omega
    · simp only [if_neg hn] at h
      have := ih h
      cases hd with
      | mk a b => simp; omega

theorem commonDirPairs_sizeOf {l r : List (String × FSEntry)}
    {p : String × List (String × FSEntry) × List (String × FSEntry)}
    (h : p ∈ commonDirPairs l r) : sizeOf p.2.1 < sizeOf l ∧ sizeOf p.2.2 < sizeOf r := by
  rw [commonDirPairs] at h
  rcases List.mem_filterMap.mp h with ⟨n, _, hmatch⟩
  rcases hl : lookupE l n with _ | el <;> rw [hl] at hmatch
  · simp at hmatch
  rcases hr : lookupE r n with _ | er <;> rw [hr] at hmatch
  · cases el <;> simp at hmatch
  cases el with
  | file c m => cases er <;> simp at hmatch
  | dir es1 =>
    cases er with
    | file c m => simp at hmatch
    | dir es2 =>
      have hp : (n, es1, es2) = p := by
        injection hmatch
      subst hp
      have s1 := lookupE_sizeOf hl
      have s2 := lookupE_sizeOf hr
      simp only [FSEntry.dir.sizeOf_spec] at s1 s2
      constructor
      · simp; omega
      · simp; omega

/-- The structural diff: `dircmp(left, right)` followed by the recursive walk over
`dircmp.subdirs`: the full structural diff tree. -/
def diffDir (l r : List (String × FSEntry)) : DiffNode :=
  DiffNode.mk (leftOnlyNames l r) (rightOnlyNames l r) (diffFilesNames l r)
    (commonFunnyNames l r)
    ((commonDirPairs l r).attach.map fun p => (p.1.1, diffDir p.1.2.1 p.1.2.2))
termination_by sizeOf l
decreasing_by exact (commonDirPairs_sizeOf p.2).1

/-- The diff result is trivial at every level: no added, removed or
modified entries anywhere in the recursion. -/
inductive AllEmpty : DiffNode → Prop where
  | mk : ∀ lo ro df fu subs, lo = [] → ro = [] → df = [] →
      (∀ p ∈ subs, AllEmpty (Prod.snd p)) →
      AllEmpty (DiffNode.mk lo ro df fu subs)

/-- Claim C4: if both reference identifiers passed to the comparer are `None`,
construction fails on the initial assertion ("One hash can not be None")
and, in both iterations, no scratch directory or any other filesystem
resource has been created at that point. -/
theorem c4_config_error_before_scratch :
    refInit1 none none = (some "One hash can not be None", []) ∧
    refInit2 none none = (some "One hash can not be None", []) := by
  constructor <;> rfl

/-- Claim C7 counterexample: calling `ReferenceComparer.teardown` (compare.py)
twice in succession raises: the first call removes the scratch directory,
the second calls `shutil.rmtree` on the now-missing path, which raises
`FileNotFoundError`. -/
theorem c7_teardown_counterexample :
    teardown1 (some "tmpA") ["tmpA"] = .ok [] ∧
    teardown1 (some "tmpA") [] = .error "FileNotFoundError" := by
  constructor <;> rfl

/-- Claim C7 amended: `FileManager.teardown` (compare2.py) never raises: before
`setup` it is a no-op, after a teardown a second teardown is a no-op on the
already-removed scratch directory; but `ReferenceComparer.teardown` of
compare.py raises when called a second time. -/
theorem c7_teardown_amended :
    (∀ (m : FileManagerState) (fs : FS), ∃ r, fmTeardown m fs = .ok r ∧
        fmTeardown r.1 r.2 = .ok (⟨none⟩, r.2)) ∧
    (∀ fs : FS, fmTeardown ⟨none⟩ fs = .ok (⟨none⟩, fs)) ∧
    teardown1 (some "tmpA") [] = .error "FileNotFoundError" := by
  refine ⟨?_, fun fs => rfl, rfl⟩
  intro m fs
  cases m with
  | mk td =>
    cases td with
    | none => exact ⟨(⟨none⟩, fs), rfl, rfl⟩
    | some d =>
      by_cases hd : d ∈ fs
      · refine ⟨(⟨none⟩, fs.erase d), ?_, rfl⟩
        simp [fmTeardown, rmtree, hd]
      · refine ⟨(⟨none⟩, fs), ?_, rfl⟩
        simp [fmTeardown, rmtree, hd]

/-- Claim C2 counterexample: the compare.py comparator, invoked on two perfectly
valid stores, returns its summary successfully while both opened store
handles are still open — neither handle is ever closed. -/
theorem c2_handles_counterexample :
    summariseChangesHdf1 (some [("/k", [(0, EVal.num 1)])])
        (some [("/k", [(0, EVal.num 1)])]) initHandles =
      (.ok (⟨0, 1, 0, []⟩, []), ⟨[0, 1], 2⟩) := by
  rfl

/-- Claim C2 amended: the compare2.py comparator closes both handles before
returning whenever both stores open successfully (per-key errors are
caught inside the loop, so that path always runs to the closes); but when
the second open fails it propagates with the first handle still open, and
the compare.py comparator returns with both handles open. -/
theorem c2_handles_amended :
    (∀ s1 s2 : Store,
        (summariseChangesHdf2 (some s1) (some s2) initHandles).2.openIds = []) ∧
    (∀ s1 : Store,
        (summariseChangesHdf2 (some s1) none initHandles).2.openIds = [0]) ∧
    (∀ s1 s2 : Store,
        (summariseChangesHdf1 (some s1) (some s2) initHandles).2.openIds = [0, 1]) := by
  exact ⟨fun s1 s2 => rfl, fun s1 => rfl, fun s1 s2 => rfl⟩

/-- Claim C3 counterexample: a store file that cannot be opened makes
`compare_hdf_files` (compare2.py) propagate the open error: the walk stops
at the failing file and the remaining, perfectly comparable store file
("b.h5") is never compared and never appears in the report. -/
theorem c3_skip_counterexample :
    compareHdfFiles2
        [⟨"a.h5", "sub", none, some (some [("/k", [(0, EVal.num 1)])])⟩,
         ⟨"b.h5", "sub2", some [("/k", [(0, EVal.num 1)])],
            some (some [("/k", [(0, EVal.num 2)])])⟩]
        [] initHandles =
      (some .storeOpenError, [("a.h5", ("sub", none))], initHandles) ∧
    lookupRep [("a.h5", ("sub", none))] "b.h5" = none := by
  constructor <;> rfl

/-- Claim C3 amended: a discovered store file whose counterpart exists but which
cannot be opened aborts the whole walk — the escaping error is returned,
the failing file leaves only its path entry, and the remaining files are
not visited; files that do open are processed in sequence, each merging
its summary into the report before the walk continues. -/
theorem c3_abort_amended :
    (∀ (name relPath : String) (p2 : Option Store) (rest : List FileEntry)
        (rep : Report) (h : HandleState),
        compareHdfFiles2 (⟨name, relPath, none, some p2⟩ :: rest) rep h =
          (some .storeOpenError, insertRep rep name (relPath, none), h)) ∧
    (∀ (name relPath : String) (s1 s2 : Store) (rest : List FileEntry)
        (rep : Report) (h : HandleState),
        compareHdfFiles2 (⟨name, relPath, some s1, some (some s2)⟩ :: rest) rep h =
          compareHdfFiles2 rest
            (insertRep (insertRep rep name (relPath, none)) name
              (relPath, some (summariseCore2 s1 s2).1))
            (summariseChangesHdf2 (some s1) (some s2) h).2) := by
  exact ⟨fun name relPath p2 rest rep h => rfl,
         fun name relPath s1 s2 rest rep h => rfl⟩

theorem processKey2_spec (s1 s2 : Store) (st : KeyLoopState) (k : String) :
    processKey2 s1 s2 st k =
      ⟨st.identical ++ (if identicalKey2 s1 s2 k then [k] else []),
       st.diffData ++ (if diffKey2 s1 s2 k then [k] else []),
       st.dfs ++ (dfsEntry2 s1 s2 k).toList,
       st.errs ++ (if errKey2 s1 s2 k then [k] else [])⟩ := by
  rcases h1 : storeGet s1 k with _ | t1
  · simp [processKey2, identicalKey2, diffKey2, dfsEntry2, errKey2, bothTables, h1]
  rcases h2 : storeGet s2 k with _ | t2
  · simp [processKey2, identicalKey2, diffKey2, dfsEntry2, errKey2, bothTables, h1, h2]
  by_cases he : tEquals t1 t2
  · simp [processKey2, identicalKey2, diffKey2, dfsEntry2, errKey2, bothTables, h1, h2, he]
  rcases hr : relStored t1 t2 with e | d
  · simp [processKey2, identicalKey2, diffKey2, dfsEntry2, errKey2, bothTables,
      h1, h2, he, hr]
  rcases hd : displayDiffs t1 t2 with e | p
  · simp [processKey2, identicalKey2, diffKey2, dfsEntry2, errKey2, bothTables,
      h1, h2, he, hr, hd]
  · simp [processKey2, identicalKey2, diffKey2, dfsEntry2, errKey2, bothTables,
      h1, h2, he, hr, hd]

theorem processKey1_spec (s1 s2 : Store) (st : KeyLoopState) (k : String) :
    processKey1 s1 s2 st k =
      ⟨st.identical ++ (if identicalKey1 s1 s2 k then [k] else []),
       st.diffData ++ (if diffKey1 s1 s2 k then [k] else []),
       st.dfs ++ (dfsEntry1 s1 s2 k).toList,
       st.errs ++ (if errKey1 s1 s2 k then [k] else [])⟩ := by
  rcases h1 : storeGet s1 k with _ | t1
  · simp [processKey1, identicalKey1, diffKey1, dfsEntry1, errKey1, bothTables, h1]
  rcases h2 : storeGet s2 k with _ | t2
  · simp [processKey1, identicalKey1, diffKey1, dfsEntry1, errKey1, bothTables, h1, h2]
  by_cases he : tEquals t2 t1
  · simp [processKey1, identicalKey1, diffKey1, dfsEntry1, errKey1, bothTables, h1, h2, he]
  rcases hd : displayDiffs t1 t2 with e | p
  · simp [processKey1, identicalKey1, diffKey1, dfsEntry1, errKey1, bothTables,
      h1, h2, he, hd, Except.isOk, Except.toBool]
  · simp [processKey1, identicalKey1, diffKey1, dfsEntry1, errKey1, bothTables,
      h1, h2, he, hd, Except.isOk, Except.toBool]

theorem keyLoopGo2 (s1 s2 : Store) (ks : List String) : ∀ st : KeyLoopState,
    ks.foldl (processKey2 s1 s2) st =
      ⟨st.identical ++ ks.filter (identicalKey2 s1 s2),
       st.diffData ++ ks.filter (diffKey2 s1 s2),
       st.dfs ++ ks.filterMap (dfsEntry2 s1 s2),
       st.errs ++ ks.filter (errKey2 s1 s2)⟩ := by
  induction ks with
  | nil => intro st; simp
  | cons k ks ih =>
    intro st
    rw [List.foldl_cons, ih, processKey2_spec]
    rcases hdfs : dfsEntry2 s1 s2 k with _ | e <;>
      by_cases hi : identicalKey2 s1 s2 k <;>
      by_cases hd : diffKey2 s1 s2 k <;>
      by_cases he : errKey2 s1 s2 k <;>
      simp [List.filter_cons, List.filterMap_cons, hi, hd, he, hdfs, List.append_assoc]

theorem keyLoopGo1 (s1 s2 : Store) (ks : List String) : ∀ st : KeyLoopState,
    ks.foldl (processKey1 s1 s2) st =
      ⟨st.identical ++ ks.filter (identicalKey1 s1 s2),
       st.diffData ++ ks.filter (diffKey1 s1 s2),
       st.dfs ++ ks.filterMap (dfsEntry1 s1 s2),
       st.errs ++ ks.filter (errKey1 s1 s2)⟩ := by
  induction ks with
  | nil => intro st; simp
  | cons k ks ih =>
    intro st
    rw [List.foldl_cons, ih, processKey1_spec]
    rcases hdfs : dfsEntry1 s1 s2 k with _ | e <;>
      by_cases hi : identicalKey1 s1 s2 k <;>
      by_cases hd : diffKey1 s1 s2 k <;>
      by_cases he : errKey1 s1 s2 k <;>
      simp [List.filter_cons, List.filterMap_cons, hi, hd, he, hdfs, List.append_assoc]

theorem keyLoop2_spec (s1 s2 : Store) :
    keyLoop2 s1 s2 =
      ⟨(interKeys s1 s2).filter (identicalKey2 s1 s2),
       (interKeys s1 s2).filter (diffKey2 s1 s2),
       (interKeys s1 s2).filterMap (dfsEntry2 s1 s2),
       (interKeys s1 s2).filter (errKey2 s1 s2)⟩ := by
  rw [keyLoop2, keyLoopGo2]
  simp

theorem keyLoop1_spec (s1 s2 : Store) :
    keyLoop1 s1 s2 =
      ⟨(interKeys s1 s2).filter (identicalKey1 s1 s2),
       (interKeys s1 s2).filter (diffKey1 s1 s2),
       (interKeys s1 s2).filterMap (dfsEntry1 s1 s2),
       (interKeys s1 s2).filter (errKey1 s1 s2)⟩ := by
  rw [keyLoop1, keyLoopGo1]
  simp

theorem storeGet_mem_keys {s : Store} {k : String} {t : Table}
    (h : storeGet s k = some t) : k ∈ storeKeys s := by
  rw [storeKeys, List.mem_dedup]
  induction s with
  | nil => simp [storeGet] at h
  | cons hd tl ih =>
    rw [storeGet] at h
    by_cases hk : hd.1 = k
    · simp [hk]
    · simp only [if_neg hk] at h
      simp [ih h]

theorem mem_keys_storeGet {s : Store} {k : String}
    (h : k ∈ storeKeys s) : ∃ t, storeGet s k = some t := by
  rw [storeKeys, List.mem_dedup] at h
  induction s with
  | nil => simp at h
  | cons hd tl ih =>
    rw [storeGet]
    by_cases hk : hd.1 = k
    · exact ⟨hd.2, by simp [hk]⟩
    · simp only [if_neg hk]
      apply ih
      simp only [List.map_cons, List.mem_cons] at h
      rcases h with h | h
      · exact absurd h.symm hk
      · exact h

theorem mem_interKeys {s1 s2 : Store} {k : String} :
    k ∈ interKeys s1 s2 ↔ k ∈ storeKeys s1 ∧ k ∈ storeKeys s2 := by
  rw [interKeys]
  simp [List.mem_filter]

theorem interKeys_nodup (s1 s2 : Store) : (interKeys s1 s2).Nodup := by
  rw [interKeys]
  exact (List.nodup_dedup _).filter _

theorem interKeys_bothTables {s1 s2 : Store} {k : String} (h : k ∈ interKeys s1 s2) :
    ∃ t1 t2, storeGet s1 k = some t1 ∧ storeGet s2 k = some t2 := by
  rcases mem_interKeys.mp h with ⟨h1, h2⟩
  rcases mem_keys_storeGet h1 with ⟨t1, e1⟩
  rcases mem_keys_storeGet h2 with ⟨t2, e2⟩
  exact ⟨t1, t2, e1, e2⟩

theorem length_filter_pair {α : Type} (l : List α) (p q : α → Bool)
    (h : ∀ a ∈ l, q a = !p a) :
    (l.filter p).length + (l.filter q).length = l.length := by
  induction l with
  | nil => simp
  | cons a l ih =>
    have ha := h a (List.mem_cons_self a l)
    have ih2 := ih fun b hb => h b (List.mem_cons_of_mem a hb)
    cases hp : p a <;> rw [hp] at ha <;>
      simp [List.filter_cons, hp, ha] <;> omega

theorem length_filter_or_disjoint {α : Type} (l : List α) (p q : α → Bool)
    (h : ∀ a ∈ l, (p a && q a) = false) :
    (l.filter fun a => p a || q a).length = (l.filter p).length + (l.filter q).length := by
  induction l with
  | nil => simp
  | cons a l ih =>
    have ha := h a (List.mem_cons_self a l)
    have ih2 := ih fun b hb => h b (List.mem_cons_of_mem a hb)
    cases hp : p a <;> cases hq : q a <;> rw [hp, hq] at ha <;>
      simp [List.filter_cons, hp, hq] <;> first
      | omega
      | (exact absurd ha (by simp))

/-- Claim C10 counterexample: two stores sharing the single key `/k`, whose
tables hold non-numeric content and differ.  compare2.py appends the key
to `identical_name_different_data` before the subtraction raises, so
`identical_keys + identical_keys_diff_data` equals the intersection size
even though the key errored, and the counted key has no entry in the
relative-difference mapping. -/
theorem c10_counting_counterexample :
    ((keyLoop2 [("/k", [(0, EVal.str "a")])] [("/k", [(0, EVal.str "b")])]).identical.length +
        (keyLoop2 [("/k", [(0, EVal.str "a")])] [("/k", [(0, EVal.str "b")])]).diffData.length =
      (interKeys [("/k", [(0, EVal.str "a")])] [("/k", [(0, EVal.str "b")])]).length) ∧
    (keyLoop2 [("/k", [(0, EVal.str "a")])] [("/k", [(0, EVal.str "b")])]).errs = ["/k"] ∧
    (keyLoop2 [("/k", [(0, EVal.str "a")])] [("/k", [(0, EVal.str "b")])]).dfs = [] := by
  refine ⟨?_, ?_, ?_⟩ <;> rfl

/-- Claim C10 amended: in both iterations
`identical_keys + identical_keys_diff_data` never exceeds the cardinality
of the key intersection.  In compare.py the three outcomes (identical,
diff-data with a stored table, caught error) partition the intersection,
so equality holds exactly when no key errored; in compare2.py the sum
always equals the intersection size because a key whose difference
computation raises has already been counted as diff-data (and then lacks
an entry in the relative-difference mapping). -/
theorem c10_counting_amended : ∀ s1 s2 : Store,
    ((keyLoop2 s1 s2).identical.length + (keyLoop2 s1 s2).diffData.length =
      (interKeys s1 s2).length) ∧
    ((keyLoop1 s1 s2).identical.length + (keyLoop1 s1 s2).diffData.length +
        (keyLoop1 s1 s2).errs.length = (interKeys s1 s2).length) ∧
    ((keyLoop1 s1 s2).identical.length + (keyLoop1 s1 s2).diffData.length =
        (interKeys s1 s2).length ↔ (keyLoop1 s1 s2).errs = []) := by
  intro s1 s2
  have h2 : (keyLoop2 s1 s2).identical.length + (keyLoop2 s1 s2).diffData.length =
      (interKeys s1 s2).length := by
    rw [keyLoop2_spec]
    apply length_filter_pair
    intro k hk
    rcases interKeys_bothTables hk with ⟨t1, t2, e1, e2⟩
    simp [diffKey2, identicalKey2, bothTables, e1, e2]
  have h1 : (keyLoop1 s1 s2).identical.length + (keyLoop1 s1 s2).diffData.length +
      (keyLoop1 s1 s2).errs.length = (interKeys s1 s2).length := by
    rw [keyLoop1_spec]
    have hsplit := length_filter_or_disjoint (interKeys s1 s2)
      (diffKey1 s1 s2) (errKey1 s1 s2) ?_
    · have hpair := length_filter_pair (interKeys s1 s2)
        (identicalKey1 s1 s2) (fun k => diffKey1 s1 s2 k || errKey1 s1 s2 k) ?_
      · simp only []
        omega
      · intro k hk
        rcases interKeys_bothTables hk with ⟨t1, t2, e1, e2⟩
        simp only [diffKey1, errKey1, identicalKey1, bothTables, e1, e2]
        cases tEquals t2 t1 <;> cases (displayDiffs t1 t2).isOk <;> rfl
    · intro k hk
      rcases interKeys_bothTables hk with ⟨t1, t2, e1, e2⟩
      simp only [diffKey1, errKey1, bothTables, e1, e2]
      cases tEquals t2 t1 <;> cases (displayDiffs t1 t2).isOk <;> rfl
  refine ⟨h2, h1, ?_⟩
  constructor
  · intro hsum
    have : (keyLoop1 s1 s2).errs.length = 0 := by omega
    exact List.length_eq_zero.mp this
  · intro hnil
    rw [hnil] at h1
    simpa using h1

theorem evEq_symm (a b : EVal) : evEq a b = evEq b a := by
  cases a <;> cases b <;> simp [evEq] <;> exact eq_comm

theorem tEquals_true_symm {t1 t2 : Table} (h : tEquals t1 t2 = true) :
    tEquals t2 t1 = true := by
  rw [tEquals] at h ⊢
  simp only [Bool.and_eq_true, decide_eq_true_eq, List.all_eq_true] at h ⊢
  rcases h with ⟨hlen, hall⟩
  refine ⟨hlen.symm, ?_⟩
  intro p hp
  have hswap : p.swap ∈ t1.zip t2 := by
    rw [← List.zip_swap t2 t1]
    exact List.mem_map_of_mem Prod.swap hp
  have h2 := hall p.swap hswap
  simp only [Prod.swap, Bool.and_eq_true, decide_eq_true_eq] at h2
  exact ⟨h2.1.symm, by rw [evEq_symm]; exact h2.2⟩

theorem dfsEntry2_fst {s1 s2 : Store} {k : String} {p : String × Table}
    (h : dfsEntry2 s1 s2 k = some p) : p.1 = k := by
  rw [dfsEntry2] at h
  rcases hb : bothTables s1 s2 k with _ | q <;> rw [hb] at h
  · simp at h
  · by_cases he : tEquals q.1 q.2
    · simp [he] at h
    · simp only [if_neg he] at h
      rcases hr : relStored q.1 q.2 with e | d <;> rw [hr] at h
      · simp at h
      · cases h; rfl

theorem dfsEntry1_fst {s1 s2 : Store} {k : String} {p : String × Table}
    (h : dfsEntry1 s1 s2 k = some p) : p.1 = k := by
  rw [dfsEntry1] at h
  rcases hb : bothTables s1 s2 k with _ | q <;> rw [hb] at h
  · simp at h
  · by_cases he : tEquals q.2 q.1
    · simp [he] at h
    · simp only [if_neg he] at h
      rcases hd : displayDiffs q.1 q.2 with e | d <;> rw [hd] at h
      · simp at h
      · cases h; rfl

/-- Claim C8: a key present in both stores whose two tables are element-wise
equal (same shape, same values, matching labels) is placed in
`identical_items` by both iterations, is not counted as
same-name-different-data, and no relative-difference table is ever stored
for it. -/
theorem c8_identical_never_diff (s1 s2 : Store) (k : String) (t1 t2 : Table)
    (h1 : storeGet s1 k = some t1) (h2 : storeGet s2 k = some t2)
    (he : tEquals t1 t2 = true) :
    (k ∈ (keyLoop2 s1 s2).identical ∧ (∀ p ∈ (keyLoop2 s1 s2).dfs, p.1 ≠ k) ∧
      k ∉ (keyLoop2 s1 s2).diffData) ∧
    (k ∈ (keyLoop1 s1 s2).identical ∧ (∀ p ∈ (keyLoop1 s1 s2).dfs, p.1 ≠ k) ∧
      k ∉ (keyLoop1 s1 s2).diffData) := by
  have he1 : tEquals t2 t1 = true := tEquals_true_symm he
  have hkin : k ∈ interKeys s1 s2 :=
    mem_interKeys.mpr ⟨storeGet_mem_keys h1, storeGet_mem_keys h2⟩
  rw [keyLoop2_spec, keyLoop1_spec]
  refine ⟨⟨?_, ?_, ?_⟩, ⟨?_, ?_, ?_⟩⟩
  · exact List.mem_filter.mpr ⟨hkin, by simp [identicalKey2, bothTables, h1, h2, he]⟩
  · intro p hp hpk
    rcases List.mem_filterMap.mp hp with ⟨j, _, hj⟩
    have : j = k := by rw [← dfsEntry2_fst hj, hpk]
    subst this
    rw [dfsEntry2] at hj
    simp [bothTables, h1, h2, he] at hj
  · intro hmem
    have := (List.mem_filter.mp hmem).2
    simp [diffKey2, bothTables, h1, h2, he] at this
  · exact List.mem_filter.mpr ⟨hkin, by simp [identicalKey1, bothTables, h1, h2, he1]⟩
  · intro p hp hpk
    rcases List.mem_filterMap.mp hp with ⟨j, _, hj⟩
    have : j = k := by rw [← dfsEntry1_fst hj, hpk]
    subst this
    rw [dfsEntry1] at hj
    simp [bothTables, h1, h2, he1] at hj
  · intro hmem
    have := (List.mem_filter.mp hmem).2
    simp [diffKey1, bothTables, h1, h2, he1] at this

/-- Claim C8 witness: a concrete store pair sharing one key with equal tables. -/
theorem c8_identical_never_diff_witness :
    (storeGet [("/k", [(0, EVal.num 1)])] "/k" = some [(0, EVal.num 1)] ∧
      tEquals [(0, EVal.num 1)] [(0, EVal.num 1)] = true) ∧
    (("/k" ∈ (keyLoop2 [("/k", [(0, EVal.num 1)])] [("/k", [(0, EVal.num 1)])]).identical ∧
        (∀ p ∈ (keyLoop2 [("/k", [(0, EVal.num 1)])] [("/k", [(0, EVal.num 1)])]).dfs,
          p.1 ≠ "/k") ∧
        "/k" ∉ (keyLoop2 [("/k", [(0, EVal.num 1)])] [("/k", [(0, EVal.num 1)])]).diffData) ∧
      ("/k" ∈ (keyLoop1 [("/k", [(0, EVal.num 1)])] [("/k", [(0, EVal.num 1)])]).identical ∧
        (∀ p ∈ (keyLoop1 [("/k", [(0, EVal.num 1)])] [("/k", [(0, EVal.num 1)])]).dfs,
          p.1 ≠ "/k") ∧
        "/k" ∉ (keyLoop1 [("/k", [(0, EVal.num 1)])] [("/k", [(0, EVal.num 1)])]).diffData)) :=
  ⟨⟨rfl, by decide⟩,
    c8_identical_never_diff [("/k", [(0, EVal.num 1)])] [("/k", [(0, EVal.num 1)])]
      "/k" [(0, EVal.num 1)] [(0, EVal.num 1)] rfl rfl (by decide)⟩

/-- Claim C5: the report is keyed by base file name only: when two store files
with the same base name at different relative paths are both discovered
and successfully compared, the later-compared file's entry overwrites the
earlier one, and the final report holds exactly one entry under that name
— the later file's path and summary. -/
theorem c5_report_overwrite (name rp1 rp2 : String) (sa1 sa2 sb1 sb2 : Store)
    (_hne : rp1 ≠ rp2) :
    (compareHdfFiles2
        [⟨name, rp1, some sa1, some (some sa2)⟩,
         ⟨name, rp2, some sb1, some (some sb2)⟩]
        [] initHandles).1 = none ∧
    (compareHdfFiles2
        [⟨name, rp1, some sa1, some (some sa2)⟩,
         ⟨name, rp2, some sb1, some (some sb2)⟩]
        [] initHandles).2.1 = [(name, (rp2, some (summariseCore2 sb1 sb2).1))] := by
  constructor <;>
    simp [compareHdfFiles2, insertRep, summariseChangesHdf2, openStore, closeStore]

/-- Claim C5 witness: two concrete same-named store files at the relative paths
"a" and "b". -/
theorem c5_report_overwrite_witness :
    (("a" : String) ≠ "b") ∧
    ((compareHdfFiles2
        [⟨"x.h5", "a", some [("/k", [(0, EVal.num 1)])],
            some (some [("/k", [(0, EVal.num 1)])])⟩,
         ⟨"x.h5", "b", some [("/k", [(0, EVal.num 1)])],
            some (some [("/k", [(0, EVal.num 2)])])⟩]
        [] initHandles).1 = none ∧
      (compareHdfFiles2
        [⟨"x.h5", "a", some [("/k", [(0, EVal.num 1)])],
            some (some [("/k", [(0, EVal.num 1)])])⟩,
         ⟨"x.h5", "b", some [("/k", [(0, EVal.num 1)])],
            some (some [("/k", [(0, EVal.num 2)])])⟩]
        [] initHandles).2.1 =
        [("x.h5", ("b", some (summariseCore2 [("/k", [(0, EVal.num 1)])]
            [("/k", [(0, EVal.num 2)])]).1))]) :=
  ⟨by decide,
    c5_report_overwrite "x.h5" "a" "b" [("/k", [(0, EVal.num 1)])]
      [("/k", [(0, EVal.num 1)])] [("/k", [(0, EVal.num 1)])]
      [("/k", [(0, EVal.num 2)])] (by decide)⟩

theorem leftOnlyNames_self (l : List (String × FSEntry)) : leftOnlyNames l l = [] := by
  rw [leftOnlyNames]
  apply List.filter_eq_nil_iff.mpr
  intro n hn
  simp [hn]

theorem rightOnlyNames_self (l : List (String × FSEntry)) : rightOnlyNames l l = [] := by
  rw [rightOnlyNames]
  apply List.filter_eq_nil_iff.mpr
  intro n hn
  simp [hn]

theorem fileCmpShallow_self (c : List Nat) (m : Nat) : fileCmpShallow c m c m = true := by
  simp [fileCmpShallow]

theorem diffFilesNames_self (l : List (String × FSEntry)) : diffFilesNames l l = [] := by
  rw [diffFilesNames]
  apply List.filter_eq_nil_iff.mpr
  intro n _
  rcases hl : lookupE l n with _ | e
  · simp
  · cases e with
    | file c m => simp [fileCmpShallow_self]
    | dir es => simp

theorem commonDirPairs_self {l : List (String × FSEntry)}
    {p : String × List (String × FSEntry) × List (String × FSEntry)}
    (h : p ∈ commonDirPairs l l) : p.2.1 = p.2.2 := by
  rw [commonDirPairs] at h
  rcases List.mem_filterMap.mp h with ⟨n, _, hmatch⟩
  rcases hl : lookupE l n with _ | e <;> rw [hl] at hmatch
  · simp at hmatch
  · cases e with
    | file c m => simp at hmatch
    | dir es =>
      have hp : (n, es, es) = p := by injection hmatch
      rw [← hp]

/-- Claim C9: diffing any directory tree against itself yields empty
added/removed/modified sets at every level of the recursion. -/
theorem c9_diff_self_empty : ∀ l : List (String × FSEntry), AllEmpty (diffDir l l) := by
  have key : ∀ (n : Nat) (l : List (String × FSEntry)),
      sizeOf l ≤ n → AllEmpty (diffDir l l) := by
    intro n
    induction n with
    | zero =>
      intro l h
      exact absurd h (by cases l <;> simp)
    | succ n ih =>
      intro l hl
      rw [diffDir]
      apply AllEmpty.mk
      · exact leftOnlyNames_self l
      · exact rightOnlyNames_self l
      · exact diffFilesNames_self l
      · intro p hp
        rcases List.mem_map.mp hp with ⟨q, _, hqe⟩
        rw [← hqe]
        simp only []
        have heq := commonDirPairs_self q.2
        have hsz := (commonDirPairs_sizeOf q.2).1
        rw [← heq]
        exact ih q.1.2.1 (by omega)
  intro l
  exact key (sizeOf l) l le_rfl

theorem fileCmpShallow_eq_false_iff (c1 : List Nat) (m1 : Nat) (c2 : List Nat) (m2 : Nat) :
    fileCmpShallow c1 m1 c2 m2 = false ↔
      ((c1.length, m1) ≠ (c2.length, m2) ∧ c1 ≠ c2) := by
  rw [fileCmpShallow]
  by_cases hsig : c1.length = c2.length ∧ m1 = m2
  · rw [if_pos hsig]
    constructor
    · intro h; exact absurd h (by simp)
    · intro h
      exact absurd ((Prod.mk.injEq _ _ _ _).mpr ⟨hsig.1, hsig.2⟩) h.1
  · rw [if_neg hsig]
    by_cases hlen : c1.length ≠ c2.length
    · rw [if_pos hlen]
      constructor
      · intro _
        exact ⟨fun hh => hlen (congrArg Prod.fst hh), fun hc => hlen (by rw [hc])⟩
      · intro _
        rfl
    · rw [if_neg hlen]
      push_neg at hlen
      rw [decide_eq_false_iff_not]
      constructor
      · intro hc
        exact ⟨fun hh => hsig ⟨hlen, congrArg Prod.snd hh⟩, hc⟩
      · intro h
        exact h.2

/-- Claim C6 counterexample: two same-named files with different byte contents
but equal size and equal mtime: the shallow stat-signature comparison of
`dircmp` reports them equal, so the name is NOT classified as modified
even though the byte contents are unequal. -/
theorem c6_shallow_counterexample :
    lookupE [("a", FSEntry.file [0] 5)] "a" = some (FSEntry.file [0] 5) ∧
    lookupE [("a", FSEntry.file [1] 5)] "a" = some (FSEntry.file [1] 5) ∧
    ([0] : List Nat) ≠ [1] ∧
    diffFilesNames [("a", FSEntry.file [0] 5)] [("a", FSEntry.file [1] 5)] = [] := by
  exact ⟨rfl, rfl, by decide, rfl⟩

/-- Claim C6 amended: a name present as a regular file on both sides of a level
is classified as modified if and only if the shallow comparison fails —
its (size, mtime) stat signatures differ and its byte contents are
unequal.  (Equal signatures short-circuit to unmodified without reading
content; unequal sizes always mark it modified.) -/
theorem c6_modified_iff_shallow (l r : List (String × FSEntry)) (n : String)
    (c1 c2 : List Nat) (m1 m2 : Nat)
    (hn : n ∈ commonNames l r)
    (hl : lookupE l n = some (.file c1 m1)) (hr : lookupE r n = some (.file c2 m2)) :
    n ∈ diffFilesNames l r ↔ ((c1.length, m1) ≠ (c2.length, m2) ∧ c1 ≠ c2) := by
  rw [diffFilesNames, List.mem_filter, ← fileCmpShallow_eq_false_iff]
  constructor
  · intro h
    have h2 := h.2
    simp only [hl, hr] at h2
    simpa using h2
  · intro h
    refine ⟨hn, ?_⟩
    simp only [hl, hr]
    simpa using h

/-- Claim C6 witness: files with equal sizes, different mtimes and different
contents, for which the amended equivalence reports "modified". -/
theorem c6_modified_iff_shallow_witness :
    ("a" ∈ commonNames [("a", FSEntry.file [0] 5)] [("a", FSEntry.file [1] 6)] ∧
      lookupE [("a", FSEntry.file [0] 5)] "a" = some (FSEntry.file [0] 5) ∧
      lookupE [("a", FSEntry.file [1] 6)] "a" = some (FSEntry.file [1] 6)) ∧
    ("a" ∈ diffFilesNames [("a", FSEntry.file [0] 5)] [("a", FSEntry.file [1] 6)] ↔
      ((([0] : List Nat).length, 5) ≠ (([1] : List Nat).length, 6) ∧
        ([0] : List Nat) ≠ [1])) :=
  ⟨⟨by decide, rfl, rfl⟩,
    c6_modified_iff_shallow [("a", FSEntry.file [0] 5)] [("a", FSEntry.file [1] 6)]
      "a" [0] [1] 5 6 (by decide) rfl rfl⟩

theorem lookupV_of_mem_labels {t : Table} {i : Nat} (h : i ∈ labels t) :
    ∃ v, lookupV t i = some v := by
  induction t with
  | nil => simp [labels] at h
  | cons p t ih =>
    rw [lookupV]
    by_cases hp : p.1 = i
    · exact ⟨p.2, by simp [hp]⟩
    · rw [if_neg hp]
      apply ih
      simp only [labels, List.map_cons, List.mem_cons] at h
      rcases h with h | h
      · exact absurd h.symm hp
      · exact h

theorem mem_labels_of_lookupV {t : Table} {i : Nat} {v : EVal}
    (h : lookupV t i = some v) : i ∈ labels t := by
  induction t with
  | nil => simp [lookupV] at h
  | cons p t ih =>
    rw [lookupV] at h
    by_cases hp : p.1 = i
    · simp [labels, hp]
    · rw [if_neg hp] at h
      simp only [labels, List.map_cons, List.mem_cons]
      exact Or.inr (ih h)

theorem allNum_lookupV {t : Table} {i : Nat} {v : EVal} (ht : allNum t = true)
    (h : lookupV t i = some v) : ∃ a : ℚ, v = .num a := by
  induction t with
  | nil => simp [lookupV] at h
  | cons p t ih =>
    rw [allNum, List.all_cons, Bool.and_eq_true] at ht
    rw [lookupV] at h
    by_cases hp : p.1 = i
    · rw [if_pos hp] at h
      injection h with h
      rcases hv : p.2 with a | _ | _ | _ | s <;> rw [hv] at ht <;> first
        | exact ⟨a, by rw [← h, hv]⟩
        | simp at ht
    · rw [if_neg hp] at h
      exact ih ht.2 h

theorem exMap_ok_of_all {f : Nat → Except String (Nat × EVal)} {L : List Nat}
    (h : ∀ i ∈ L, ∃ v, f i = .ok (i, v)) :
    ∃ r, exMap f L = .ok r ∧ r.map Prod.fst = L ∧ (∀ q ∈ r, f q.1 = .ok q) := by
  induction L with
  | nil => exact ⟨[], rfl, rfl, by simp⟩
  | cons i L ih =>
    rcases h i (List.mem_cons_self i L) with ⟨v, hv⟩
    rcases ih (fun j hj => h j (List.mem_cons_of_mem i hj)) with ⟨r, hr, hmap, hq⟩
    refine ⟨(i, v) :: r, ?_, ?_, ?_⟩
    · rw [exMap, hv, hr]
    · simp [hmap]
    · intro q hq2
      rcases List.mem_cons.mp hq2 with rfl | hmem
      · exact hv
      · exact hq q hmem

theorem exMap_lookupV {f : Nat → Except String (Nat × EVal)} {L : List Nat}
    (hall : ∀ j ∈ L, ∃ v, f j = .ok (j, v)) {r : Table}
    (hr : exMap f L = .ok r) {i : Nat} {v : EVal}
    (hi : i ∈ L) (hfi : f i = .ok (i, v)) :
    lookupV r i = some v := by
  induction L generalizing r with
  | nil => simp at hi
  | cons j L ih =>
    rw [exMap] at hr
    rcases hj : f j with e | p <;> rw [hj] at hr
    · exact absurd hr (by simp)
    rcases hE : exMap f L with e | r2 <;> rw [hE] at hr
    · exact absurd hr (by simp)
    have hrr : p :: r2 = r := by injection hr
    subst hrr
    rcases hall j (List.mem_cons_self j L) with ⟨w, hw⟩
    rw [hw] at hj
    have hp : (j, w) = p := by injection hj
    by_cases hji : j = i
    · subst hji
      rw [hfi] at hw
      have hvw : (j, v) = (j, w) := by injection hw
      have hvw2 : v = w := by injection hvw with h1 h2
      rw [lookupV, ← hp]
      simp [hvw2]
    · rcases List.mem_cons.mp hi with rfl | hmem
      · exact absurd rfl hji
      · rw [lookupV, ← hp]
        simp only [if_neg hji]
        exact ih (fun j2 hj2 => hall j2 (List.mem_cons_of_mem j hj2)) hE hmem

theorem alignLabels_of_eq {t1 t2 : Table} (h : labels t1 = labels t2) :
    alignLabels t1 t2 = labels t1 := by
  rw [alignLabels]
  have hnil : ((labels t2).filter fun i => !((labels t1).contains i)) = [] := by
    apply List.filter_eq_nil_iff.mpr
    intro i hi
    have hmem : i ∈ labels t1 := by rw [h]; exact hi
    simp [hmem]
  rw [hnil, List.append_nil]

theorem binAligned_num {op : EVal → EVal → Except String EVal} {t1 t2 : Table}
    (hlab : labels t1 = labels t2)
    (hop : ∀ i a b, lookupV t1 i = some a → lookupV t2 i = some b →
      ∃ v, op a b = .ok v) :
    ∃ r, binAligned op t1 t2 = .ok r ∧ labels r = labels t1 ∧
      (∀ i v1 v2 w, lookupV t1 i = some v1 → lookupV t2 i = some v2 →
        op v1 v2 = .ok w → i ∈ labels t1 → lookupV r i = some w) ∧
      (∀ q ∈ r, ∃ a b, lookupV t1 q.1 = some a ∧ lookupV t2 q.1 = some b ∧
        op a b = .ok q.2) := by
  have halign := alignLabels_of_eq hlab
  have hall : ∀ i ∈ alignLabels t1 t2, ∃ v, alignCell op t1 t2 i = .ok (i, v) := by
    intro i hi
    rw [halign] at hi
    rcases lookupV_of_mem_labels hi with ⟨a, ha⟩
    have hi2 : i ∈ labels t2 := by rw [← hlab]; exact hi
    rcases lookupV_of_mem_labels hi2 with ⟨b, hb⟩
    rcases hop i a b ha hb with ⟨v, hv⟩
    refine ⟨v, ?_⟩
    rw [alignCell, ha, hb]
    simp only [hv]
  rcases exMap_ok_of_all hall with ⟨r, hr, hmap, hq⟩
  refine ⟨r, hr, ?_, ?_, ?_⟩
  · rw [labels, hmap, halign]
  · intro i v1 v2 w h1 h2 hw hi
    apply exMap_lookupV hall hr (by rw [halign]; exact hi)
    rw [alignCell, h1, h2]
    simp only [hw]
  · intro q hmem
    have hfq := hq q hmem
    have hq1 : q.1 ∈ labels t1 := by
      rw [← halign, ← hmap]
      exact List.mem_map_of_mem Prod.fst hmem
    rcases lookupV_of_mem_labels hq1 with ⟨a, ha⟩
    have hq2 : q.1 ∈ labels t2 := by rw [← hlab]; exact hq1
    rcases lookupV_of_mem_labels hq2 with ⟨b, hb⟩
    rcases hop q.1 a b ha hb with ⟨v, hv⟩
    refine ⟨a, b, ha, hb, ?_⟩
    rw [alignCell, ha, hb] at hfq
    simp only [hv] at hfq
    have hqv : (q.1, v) = q := by injection hfq
    have hv2 : v = q.2 := by rw [← hqv]
    rw [hv, hv2]

theorem tAbs_num {t : Table} (ht : allNum t = true) :
    ∃ r, tAbs t = .ok r ∧ labels r = labels t ∧ allNum r = true ∧
      (∀ i a, lookupV t i = some (.num a) → lookupV r i = some (.num |a|)) := by
  induction t with
  | nil =>
    refine ⟨[], rfl, rfl, rfl, ?_⟩
    intro i a h
    simp [lookupV] at h
  | cons p t ih =>
    rw [allNum, List.all_cons, Bool.and_eq_true] at ht
    have hval : ∃ a, p.2 = .num a := by
      rcases hv : p.2 with a | _ | _ | _ | s <;> rw [hv] at ht <;> first
        | exact ⟨a, rfl⟩
        | simp at ht
    rcases hval with ⟨a, hva⟩
    rcases ih ht.2 with ⟨r2, hr2, hlab2, hnum2, hlk2⟩
    refine ⟨(p.1, .num |a|) :: r2, ?_, ?_, ?_, ?_⟩
    · rw [tAbs]
      rcases p with ⟨pi, pv⟩
      simp only at hva
      rw [hva]
      rw [show evAbs (EVal.num a) = .ok (.num |a|) from rfl, hr2]
    · simp only [labels, List.map_cons]
      exact congrArg (fun l => p.1 :: l) hlab2
    · rw [allNum, List.all_cons]
      rw [allNum] at hnum2
      simp [hnum2]
    · intro i b hb
      rw [lookupV] at hb
      rw [lookupV]
      by_cases hp : p.1 = i
      · rw [if_pos hp] at hb
        rw [if_pos hp]
        rw [hva] at hb
        have : a = b := by injection hb with hb2; injection hb2
        rw [this]
      · rw [if_neg hp] at hb
        rw [if_neg hp]
        exact hlk2 i b hb

theorem displayDiffs_num (t1 t2 : Table) (hlab : labels t1 = labels t2)
    (h1 : allNum t1 = true) (h2 : allNum t2 = true) :
    ∃ ad rel, displayDiffs t1 t2 = .ok (ad, rel) ∧
      (∀ q ∈ rel, ∃ a b : ℚ, lookupV t1 q.1 = some (.num a) ∧
          lookupV t2 q.1 = some (.num b) ∧ a ≠ 0 ∧ q.2 = .num (|a - b| / |a|)) ∧
      (∀ i : Nat, lookupV t1 i = some (.num 0) → i ∉ labels rel) ∧
      (∀ (i : Nat) (a : ℚ), lookupV t1 i = some (.num a) → a ≠ 0 →
          i ∈ labels rel) := by
  have hop_sub : ∀ i a b, lookupV t1 i = some a → lookupV t2 i = some b →
      ∃ v, evSub a b = .ok v := by
    intro i a b ha hb
    rcases allNum_lookupV h1 ha with ⟨qa, rfl⟩
    rcases allNum_lookupV h2 hb with ⟨qb, rfl⟩
    exact ⟨.num (qa - qb), rfl⟩
  rcases binAligned_num hlab hop_sub with ⟨d, hd, hdlab, hdlk, hdent⟩
  have hdnum : allNum d = true := by
    rw [allNum, List.all_eq_true]
    intro q hq
    rcases hdent q hq with ⟨a, b, ha, hb, hop⟩
    rcases allNum_lookupV h1 ha with ⟨qa, rfl⟩
    rcases allNum_lookupV h2 hb with ⟨qb, rfl⟩
    have hq2 : EVal.num (qa - qb) = q.2 := by
      have h3 : (Except.ok (EVal.num (qa - qb)) : Except String EVal) = .ok q.2 := by
        rw [← hop]
        rfl
      injection h3
    simp [← hq2]
  rcases tAbs_num hdnum with ⟨ad, had, hadlab, hadnum, hadlk⟩
  rcases tAbs_num h1 with ⟨a1, ha1, ha1lab, ha1num, ha1lk⟩
  have hlab2 : labels ad = labels a1 := by rw [hadlab, hdlab, ha1lab]
  have hop_div : ∀ i a b, lookupV ad i = some a → lookupV a1 i = some b →
      ∃ v, evDiv a b = .ok v := by
    intro i a b ha hb
    rcases allNum_lookupV hadnum ha with ⟨qa, rfl⟩
    rcases allNum_lookupV ha1num hb with ⟨qb, rfl⟩
    show ∃ v, (if qb = 0 then
        if qa = 0 then (.ok .nan : Except String EVal)
        else if 0 < qa then .ok .inf
        else .ok .ninf
      else .ok (.num (qa / qb))) = .ok v
    split_ifs <;> exact ⟨_, rfl⟩
  rcases binAligned_num hlab2 hop_div with ⟨qt, hqt, hqtlab, hqtlk, hqtent⟩
  have hmask : labels t1 = labels qt := by rw [hqtlab, hadlab, hdlab]
  have hsub : tSub t1 t2 = .ok d := hd
  have hdiv : tDiv ad a1 = .ok qt := hqt
  have hm : tMaskNeZero qt t1 = .ok (qt.filter fun p =>
      match lookupV t1 p.1 with
      | some w => evNeZero w
      | none => false) := by
    rw [tMaskNeZero, if_pos hmask]
  refine ⟨ad, qt.filter (fun p =>
      match lookupV t1 p.1 with
      | some w => evNeZero w
      | none => false), ?_, ?_, ?_, ?_⟩
  · rw [displayDiffs]
    simp only [hsub, had, ha1, hdiv, hm]
  · intro q hq
    have hqmem : q ∈ qt := List.mem_of_mem_filter hq
    have hpred := List.of_mem_filter hq
    have hq1 : q.1 ∈ labels qt := List.mem_map_of_mem Prod.fst hqmem
    have hq1t : q.1 ∈ labels t1 := by rw [hmask]; exact hq1
    rcases lookupV_of_mem_labels hq1t with ⟨w, hw⟩
    rcases allNum_lookupV h1 hw with ⟨a, rfl⟩
    have ha0 : a ≠ 0 := by
      simp only [hw] at hpred
      simpa [evNeZero] using hpred
    have hq2m : q.1 ∈ labels t2 := by rw [← hlab]; exact hq1t
    rcases lookupV_of_mem_labels hq2m with ⟨u, hu⟩
    rcases allNum_lookupV h2 hu with ⟨b, rfl⟩
    have hd_lk : lookupV d q.1 = some (.num (a - b)) :=
      hdlk q.1 _ _ _ hw hu rfl hq1t
    have had_lk : lookupV ad q.1 = some (.num |a - b|) := hadlk q.1 (a - b) hd_lk
    have ha1_lk : lookupV a1 q.1 = some (.num |a|) := ha1lk q.1 a hw
    have habs0 : ¬(|a| = 0) := fun hh => ha0 (abs_eq_zero.mp hh)
    have hdiv_val : evDiv (.num |a - b|) (.num |a|) = .ok (.num (|a - b| / |a|)) := by
      show (if |a| = 0 then
          if |a - b| = 0 then (.ok .nan : Except String EVal)
          else if 0 < |a - b| then .ok .inf
          else .ok .ninf
        else .ok (.num (|a - b| / |a|))) = .ok (.num (|a - b| / |a|))
      rw [if_neg habs0]
    rcases hqtent q hqmem with ⟨x, y, hx, hy, hxy⟩
    have hxe : x = .num |a - b| := by
      rw [hx] at had_lk
      injection had_lk
    have hye : y = .num |a| := by
      rw [hy] at ha1_lk
      injection ha1_lk
    subst hxe
    subst hye
    rw [hdiv_val] at hxy
    have hq2v : EVal.num (|a - b| / |a|) = q.2 := by injection hxy
    exact ⟨a, b, hw, hu, ha0, hq2v.symm⟩
  · intro i hi0 hmem
    rw [labels] at hmem
    rcases List.mem_map.mp hmem with ⟨q, hqf, hq1i⟩
    have hpred := List.of_mem_filter hqf
    rw [hq1i] at hpred
    simp only [hi0] at hpred
    simp [evNeZero] at hpred
  · intro i a hia ha0
    have hi1 : i ∈ labels t1 := mem_labels_of_lookupV hia
    have hiq : i ∈ labels qt := by rw [← hmask]; exact hi1
    rw [labels] at hiq
    rcases List.mem_map.mp hiq with ⟨q, hq, hqi⟩
    rw [labels]
    apply List.mem_map.mpr
    refine ⟨q, ?_, hqi⟩
    apply List.mem_filter.mpr
    refine ⟨hq, ?_⟩
    have hqpred : (match lookupV t1 q.1 with
        | some w => evNeZero w
        | none => false) = true := by
      rw [hqi, hia]
      simp [evNeZero, ha0]
    exact hqpred

theorem lookupTab_filterMap {F : String → Option (String × Table)}
    (hF : ∀ j p, F j = some p → p.1 = j) :
    ∀ {ks : List String} {k : String} {d : Table}, k ∈ ks → F k = some (k, d) →
      lookupTab (ks.filterMap F) k = some d := by
  intro ks
  induction ks with
  | nil =>
    intro k d hk hFk
    simp at hk
  | cons j ks ih =>
    intro k d hk hFk
    rw [List.filterMap_cons]
    by_cases hjk : j = k
    · subst hjk
      rw [hFk, lookupTab]
      simp
    · have hk2 : k ∈ ks := by
        rcases List.mem_cons.mp hk with rfl | h
        · exact absurd rfl hjk
        · exact h
      rcases hj : F j with _ | p
      · exact ih hk2 hFk
      · rw [lookupTab]
        have hpj : p.1 = j := hF j p hj
        rw [hpj, if_neg hjk]
        exact ih hk2 hFk

/-- Claim C1 counterexample: for the common key `/k` with `left = [0]` and
`right = [1]`, the table compare2.py stores is the signed, unmasked
`(left - right) / left`: the position where `left == 0` is present and it
holds the non-finite value `-Inf`, contradicting the claim that such
positions are absent and that no NaN/Inf is ever stored. -/
theorem c1_rel_diff_counterexample :
    (keyLoop2 [("/k", [(0, EVal.num 0)])] [("/k", [(0, EVal.num 1)])]).dfs =
      [("/k", [(0, EVal.ninf)])] ∧
    lookupV [(0, EVal.num 0)] 0 = some (EVal.num 0) ∧
    evNonFinite EVal.ninf = true := by
  refine ⟨?_, rfl, rfl⟩
  norm_num [keyLoop2, interKeys, storeKeys, processKey2, storeGet, tEquals, evEq,
    relStored, tSub, tDiv, binAligned, alignCell, alignLabels, exMap, labels,
    lookupV, evSub, evDiv, displayDiffs, tAbs, evAbs, tMaskNeZero, evNeZero,
    List.dedup, List.filter]

/-- Claim C1 amended: what is actually stored.  compare2.py stores, for every
differing key whose computation succeeds, exactly the signed unmasked
`(left - right) / left` (so left-zero positions appear, with Inf/NaN
values, as the counterexample shows); compare.py stores the masked
`(|left - right| / |left|)[left != 0]`, and for label-aligned, NaN-free
numeric tables that masked series contains exactly the positions where
`left != 0`, each holding the finite value `|left - right| / |left|`,
with every `left == 0` position absent. -/
theorem c1_rel_diff_amended :
    (∀ (s1 s2 : Store) (k : String) (t1 t2 d : Table),
        storeGet s1 k = some t1 → storeGet s2 k = some t2 →
        tEquals t1 t2 = false → relStored t1 t2 = .ok d →
        lookupTab (keyLoop2 s1 s2).dfs k = some d) ∧
    (∀ (s1 s2 : Store) (k : String) (t1 t2 : Table) (p : Table × Table),
        storeGet s1 k = some t1 → storeGet s2 k = some t2 →
        tEquals t2 t1 = false → displayDiffs t1 t2 = .ok p →
        lookupTab (keyLoop1 s1 s2).dfs k = some p.2) ∧
    (∀ t1 t2 : Table, labels t1 = labels t2 → allNum t1 = true → allNum t2 = true →
        ∃ ad rel, displayDiffs t1 t2 = .ok (ad, rel) ∧
          (∀ q ∈ rel, ∃ a b : ℚ, lookupV t1 q.1 = some (.num a) ∧
              lookupV t2 q.1 = some (.num b) ∧ a ≠ 0 ∧ q.2 = .num (|a - b| / |a|)) ∧
          (∀ i : Nat, lookupV t1 i = some (.num 0) → i ∉ labels rel) ∧
          (∀ (i : Nat) (a : ℚ), lookupV t1 i = some (.num a) → a ≠ 0 →
              i ∈ labels rel)) := by
  refine ⟨?_, ?_, displayDiffs_num⟩
  · intro s1 s2 k t1 t2 d h1 h2 he hr
    rw [keyLoop2_spec]
    apply lookupTab_filterMap (fun j p hp => dfsEntry2_fst hp)
    · exact mem_interKeys.mpr ⟨storeGet_mem_keys h1, storeGet_mem_keys h2⟩
    · simp [dfsEntry2, bothTables, h1, h2, he, hr]
  · intro s1 s2 k t1 t2 p h1 h2 he hd
    rw [keyLoop1_spec]
    apply lookupTab_filterMap (fun j p2 hp => dfsEntry1_fst hp)
    · exact mem_interKeys.mpr ⟨storeGet_mem_keys h1, storeGet_mem_keys h2⟩
    · simp [dfsEntry1, bothTables, h1, h2, he, hd]

/-- Claim C1 witness: the amended statement applied at concrete inputs — the
zero-left pair for the compare2.py conjunct, a differing numeric pair for
the compare.py conjunct, and a numeric aligned pair with a zero cell for
the masked-series conjunct. -/
theorem c1_rel_diff_amended_witness :
    (storeGet [("/k", [(0, EVal.num 0)])] "/k" = some [(0, EVal.num 0)] ∧
      tEquals [(0, EVal.num 0)] [(0, EVal.num 1)] = false ∧
      relStored [(0, EVal.num 0)] [(0, EVal.num 1)] = .ok [(0, EVal.ninf)] ∧
      lookupTab (keyLoop2 [("/k", [(0, EVal.num 0)])]
          [("/k", [(0, EVal.num 1)])]).dfs "/k" = some [(0, EVal.ninf)]) ∧
    (tEquals [(0, EVal.num 1)] [(0, EVal.num 2)] = false ∧
      displayDiffs [(0, EVal.num 2)] [(0, EVal.num 1)] =
        .ok ([(0, EVal.num 1)], [(0, EVal.num (1 / 2))]) ∧
      lookupTab (keyLoop1 [("/k", [(0, EVal.num 2)])]
          [("/k", [(0, EVal.num 1)])]).dfs "/k" = some [(0, EVal.num (1 / 2))]) ∧
    (labels [(0, EVal.num 2), (1, EVal.num 0)] =
        labels [(0, EVal.num 1), (1, EVal.num 3)] ∧
      allNum [(0, EVal.num 2), (1, EVal.num 0)] = true ∧
      ∃ ad rel, displayDiffs [(0, EVal.num 2), (1, EVal.num 0)]
          [(0, EVal.num 1), (1, EVal.num 3)] = .ok (ad, rel) ∧
        (∀ q ∈ rel, ∃ a b : ℚ,
            lookupV [(0, EVal.num 2), (1, EVal.num 0)] q.1 = some (.num a) ∧
            lookupV [(0, EVal.num 1), (1, EVal.num 3)] q.1 = some (.num b) ∧
            a ≠ 0 ∧ q.2 = .num (|a - b| / |a|)) ∧
        (∀ i : Nat, lookupV [(0, EVal.num 2), (1, EVal.num 0)] i =
            some (.num 0) → i ∉ labels rel) ∧
        (∀ (i : Nat) (a : ℚ), lookupV [(0, EVal.num 2), (1, EVal.num 0)] i =
            some (.num a) → a ≠ 0 → i ∈ labels rel)) := by
  have hrs : relStored [(0, EVal.num 0)] [(0, EVal.num 1)] = .ok [(0, EVal.ninf)] := by
    norm_num [relStored, tSub, tDiv, binAligned, alignCell, alignLabels, exMap,
      labels, lookupV, evSub, evDiv, List.filter]
  have hds : displayDiffs [(0, EVal.num 2)] [(0, EVal.num 1)] =
      .ok ([(0, EVal.num 1)], [(0, EVal.num (1 / 2))]) := by
    norm_num [displayDiffs, tSub, tDiv, binAligned, alignCell, alignLabels, exMap,
      labels, lookupV, evSub, evDiv, tAbs, evAbs, tMaskNeZero, evNeZero, List.filter]
  refine ⟨⟨rfl, by decide, hrs, ?_⟩, ⟨by decide, hds, ?_⟩, ⟨rfl, by decide, ?_⟩⟩
  · exact c1_rel_diff_amended.1 [("/k", [(0, EVal.num 0)])] [("/k", [(0, EVal.num 1)])]
      "/k" [(0, EVal.num 0)] [(0, EVal.num 1)] [(0, EVal.ninf)] rfl rfl (by decide) hrs
  · exact c1_rel_diff_amended.2.1 [("/k", [(0, EVal.num 2)])] [("/k", [(0, EVal.num 1)])]
      "/k" [(0, EVal.num 2)] [(0, EVal.num 1)]
      ([(0, EVal.num 1)], [(0, EVal.num (1 / 2))]) rfl rfl (by decide) hds
  · exact c1_rel_diff_amended.2.2 [(0, EVal.num 2), (1, EVal.num 0)]
      [(0, EVal.num 1), (1, EVal.num 3)] rfl (by decide) (by decide)
